import Mathlib

/-!
Verification development for the `griptape-structure-slack-handler` core:
a shallow embedding in Lean 4 of the message-handling logic in
`griptape_handler.py`, `griptape_tool_box.py` and `griptape_config.py`.

External collaborators (the LLM agent runs, the Griptape Cloud ruleset /
memory / tool stores, environment variables) are modelled as explicit
inputs: an environment `String → Option String` for `os.getenv`, a store
`String → List (String × JsonValue)` for ruleset-metadata lookup, and the
selector / relevance model responses as plain string / parsed-JSON inputs.
Stateful operations (the process-wide thread alias and conversation-memory
appends) are modelled by explicit state passing on a `MemoryState` record.
The feature flags `dynamic_rulesets_enabled()` / `dynamic_tools_enabled()`
(module `features`, external configuration) are modelled as boolean
parameters, which the claims quantify over or fix.
-/

/-- Model of a parsed JSON scalar value, as produced by `json.loads` and as
stored in ruleset metadata. Structured payloads (JSON objects) are modelled
as association lists `List (String × JsonValue)`; the claims under study
only inspect scalar fields, so nested objects are not needed. -/
inductive JsonValue where
  | jnull
  | jbool (b : Bool)
  | jnum (n : Int)
  | jstr (s : String)
deriving DecidableEq, Repr

/-- Python truthiness of a JSON scalar, as used by `any([...])` over
`ruleset.meta.get("dynamic_tools", False)` in `agent`. -/
def JsonValue.truthy : JsonValue → Bool
  | .jnull => false
  | .jbool b => b
  | .jnum n => n != 0
  | .jstr s => s != ""

/-- A word character of the regex class `[\w]`: letter, digit or underscore
(ASCII model of Python's `\w`). -/
def isWordChar (c : Char) : Bool :=
  c.isAlphanum || c = '_'

/-- Embedding of `re.findall(r"<@([\w]+)>", message)` from
`try_add_to_thread` (griptape_handler.py line 37): scan left to right; at
each position try to match `<@`, then a maximal nonempty run of word
characters, then `>`; on success emit the captured run and resume after the
match, on failure advance one character. Returns the captured identifiers
in order of occurrence, duplicates preserved, exactly as `re.findall`
returns the list of capture groups of the non-overlapping matches. -/
def findMentions : List Char → List (List Char)
  | [] => []
  | '<' :: '@' :: rest =>
    if h : rest.takeWhile isWordChar ≠ [] ∧
        (rest.dropWhile isWordChar).head? = some '>' then
      rest.takeWhile isWordChar :: findMentions (rest.dropWhile isWordChar).tail
    else
      findMentions ('@' :: rest)
  | _ :: rest => findMentions rest
termination_by l => l.length
decreasing_by
  all_goals simp only [List.length_cons]
  · have h1 : (rest.dropWhile isWordChar).length ≤ rest.length := by
      have h2 := congrArg List.length
        (List.takeWhile_append_dropWhile (p := isWordChar) (l := rest))
      simp only [List.length_append] at h2
      omega
    have h2 : rest.dropWhile isWordChar ≠ [] := by
      intro hnil
      rw [hnil] at h
      exact absurd h.2 (by simp)
    have h3 : (rest.dropWhile isWordChar).tail.length <
        (rest.dropWhile isWordChar).length := by
      cases hd : rest.dropWhile isWordChar with
      | nil => exact absurd hd h2
      | cons a as => simp
    omega
  · omega
  · omega

/-- The predicate "identifier `w` appears in a `<@IDENTIFIER>` occurrence
of `l`": `l` decomposes around a literal `<@w>` with `w` a nonempty run of
word characters. This is the spec-side characterisation of a mention,
written independently of the scanner. -/
def IsMentionOf (l w : List Char) : Prop :=
  w ≠ [] ∧ (∀ c ∈ w, isWordChar c = true) ∧
    ∃ pre post, l = pre ++ '<' :: '@' :: (w ++ '>' :: post)

/-- A `griptape.rules.Ruleset` handle as the handler uses it: either
identity-bound (`Ruleset(name=...)`, metadata resolved from the cloud store
by name) or catalog-bound (`Ruleset(ruleset_driver=GriptapeCloudRulesetDriver
(raise_not_found=True, ruleset_id=...))`). `meta` is the resolved metadata
mapping; for catalog rulesets the claims never inspect it, so it is empty
here and the catalog entry is identified by its fixed `rulesetId`. -/
structure Ruleset where
  name : Option String
  rulesetId : Option String
  meta : List (String × JsonValue)
deriving DecidableEq, Repr

/-- Construction `Ruleset(name=value)`: the default
`GriptapeCloudRulesetDriver(raise_not_found=False)` (set by
`load_griptape_config`) resolves metadata by name; an identity with no
ruleset in the store resolves to no metadata (`store` returns `[]`), the
soft-absence path. The store is the explicit model of the external
ruleset service. -/
def mkNamedRuleset (store : String → List (String × JsonValue))
    (name : String) : Ruleset :=
  { name := some name, rulesetId := none, meta := store name }

/-- Embedding of the bot check of `try_add_to_thread` (lines 38-44): build
one named ruleset per mention and return whether any of them has metadata
`type` equal to the string `"bot"`. The Python `for` loop returns at the
first bot-typed ruleset; since the loop body has no other effect, its
observable behaviour is this `any`. -/
def hasBotMention (store : String → List (String × JsonValue))
    (message : String) : Bool :=
  (findMentions message.toList).any fun u =>
    ((mkNamedRuleset store (String.mk u)).meta.lookup "type")
      == some (JsonValue.jstr "bot")

/-- The ambient state the handler mutates: the process-wide thread alias of
the conversation-memory driver (`Defaults.drivers_config.
conversation_memory_driver.alias`) and the runs appended to the cloud
thread, each an (input text, output text) pair. -/
structure MemoryState where
  threadAlias : Option String
  runs : List (String × String)
deriving DecidableEq, Repr

/-- Embedding of `set_thread_alias` (griptape_config.py lines 24-26):
overwrite the process-wide alias, `None` included. -/
def set_thread_alias (thread_alias : Option String) (s : MemoryState) :
    MemoryState :=
  { s with threadAlias := thread_alias }

/-- The ASCII single-quote character used in the synthesized context
message. -/
def squote : String :=
  String.singleton (Char.ofNat 39)

/-- The synthesized input text of the context run appended by
`try_add_to_thread` (lines 51-58): the f-string
`Do not respond. Only use this message for future context.
Message: 'user {user_id}: {message}'`. -/
def contextMessage (user_id message : String) : String :=
  "Do not respond. Only use this message for future context. Message: "
    ++ squote ++ "user " ++ user_id ++ ": " ++ message ++ squote

/-- Embedding of `try_add_to_thread` (griptape_handler.py lines 32-58):
set the thread alias, extract the mentions, and if none of the mentioned
identities resolves to a bot-typed ruleset append one context run with
empty output; if any does, return without appending. -/
def try_add_to_thread (store : String → List (String × JsonValue))
    (message : String) (thread_alias : Option String) (user_id : String)
    (s : MemoryState) : MemoryState :=
  let s1 := set_thread_alias thread_alias s
  if hasBotMention store message then
    s1
  else
    { s1 with runs := s1.runs ++ [(contextMessage user_id message, "")] }

/-- Embedding of `_get_default_rulesets` (griptape_handler.py lines
71-103): the fixed catalog of five operational rulesets, each bound to its
Griptape Cloud ruleset id, in source order (Knowledge Base, Slack
Personality, Zach Prime ID, Slack Formatting, Slack Tool). -/
def _get_default_rulesets : List Ruleset :=
  [ { name := none, rulesetId := some "f5a9c72b-b367-403e-9872-cdd85431e898",
      meta := [] },
    { name := none, rulesetId := some "60a368ef-f5ac-4c63-990c-80a7364a22a0",
      meta := [] },
    { name := none, rulesetId := some "6f35283b-e336-433b-84dd-9ee53e8c69bf",
      meta := [] },
    { name := none, rulesetId := some "b2cae474-a25c-476b-90a1-f39d588dd711",
      meta := [] },
    { name := none, rulesetId := some "31b9d849-dade-4c3f-ac31-377ff6f02307",
      meta := [] } ]

/-- Embedding of `get_rulesets` (griptape_handler.py lines 61-68): when the
`dynamic_rulesets_enabled()` feature flag (modelled as the boolean
`dynamic_rulesets`) is set, one named ruleset per keyword-argument value in
the order supplied (Python `kwargs` preserves insertion order), otherwise
none; then the default catalog is appended (`rulesets.extend(...)`). -/
def get_rulesets (store : String → List (String × JsonValue))
    (dynamic_rulesets : Bool) (kwargs : List (String × String)) :
    List Ruleset :=
  (if dynamic_rulesets then
    kwargs.map fun kv => mkNamedRuleset store kv.2
  else []) ++ _get_default_rulesets

/-- A tool of the catalog in `griptape_tool_box.py`: either a `RagTool`
over a Griptape Cloud knowledge base (`_get_knowledge_base_tool`) or a
`GriptapeCloudToolTool` bound to a cloud tool id. -/
inductive BaseTool where
  | ragTool (name : String) (knowledgeBaseId : String) (description : String)
  | cloudTool (toolId : String)
deriving DecidableEq, Repr

/-- The fixed description attached to every knowledge-base `RagTool`
(griptape_tool_box.py line 77). -/
def kbDescription : String :=
  "Knowledge Base with information about Griptape Operational Processes"

/-- Embedding of `_get_knowledge_base_tool` (lines 56-78): a `RagTool`
whose vector store is the knowledge base id read from the environment
variable `env_var` with default `""`. The RAG engine plumbing carries no
state the claims observe and is summarised by the knowledge-base id. -/
def _get_knowledge_base_tool (env : String → Option String)
    (name env_var : String) : BaseTool :=
  .ragTool name ((env env_var).getD "") kbDescription

/-- Embedding of `_init_tools_dict` (lines 81-125): the fixed tool catalog,
a mapping from logical tool name to (tool, description), in insertion
order (Python dicts preserve it). -/
def _init_tools_dict (env : String → Option String) :
    List (String × BaseTool × String) :=
  [ ("rv_knowledge_base_tool",
      (_get_knowledge_base_tool env "rvKB" "RV_KNOWLEDGE_BASE_ID",
        kbDescription)),
    ("truck_knowledge_base_tool",
      (_get_knowledge_base_tool env "truckKB" "TRUCK_KNOWLEDGE_BASE_ID",
        kbDescription)),
    ("quote_knowledge_base_tool",
      (_get_knowledge_base_tool env "quotes" "QUOTE_KNOWLEDGE_BASE_ID",
        kbDescription)),
    ("github_tool",
      (.cloudTool ((env "GT_CLOUD_GITHUB_TOOL_ID").getD
          "fb56b523-ec53-4490-937e-013ef0f16299"),
        "Intelligent GitHub agent with access to the Griptape and Griptape Cloud repository. Use when asked about the Griptape Framework or Griptape Cloud repository, or GitHub related questions.")),
    ("slack_tool",
      (.cloudTool ((env "GT_CLOUD_SLACK_TOOL_ID").getD
          "17f0ef8c-a5e2-4c2a-8f15-533691225195"),
        "Tool with access to Slack APIs.")) ]

/-- Python `str.split(",")` on a character list: split at every comma;
the empty input yields `[[]]` (one empty token), as in Python. -/
def pySplitComma : List Char → List (List Char)
  | [] => [[]]
  | c :: rest =>
    if c = ',' then
      [] :: pySplitComma rest
    else
      match pySplitComma rest with
      | [] => [[c]]
      | t :: ts => (c :: t) :: ts

/-- Python `str.strip()` on a character list: drop whitespace from both
ends. -/
def pyStrip (l : List Char) : List Char :=
  ((l.dropWhile Char.isWhitespace).reverse.dropWhile Char.isWhitespace).reverse

/-- String wrapper of `pySplitComma`, modelling `output.split(",")`. -/
def splitCommaStr (s : String) : List String :=
  (pySplitComma s.toList).map fun l => String.mk l

/-- String wrapper of `pyStrip`, modelling `tool_name.strip()`. -/
def stripStr (s : String) : String :=
  String.mk (pyStrip s.toList)

/-- Python dict lookup `tools_dict[name]` on the association-list model of
the catalog; `none` models the `KeyError` path. -/
def lookupTool (d : List (String × BaseTool × String)) (k : String) :
    Option (BaseTool × String) :=
  d.lookup k

/-- Effect of a Python list comprehension whose body may raise: map each
element, stopping with the first raised error. -/
def mapExcept (f : α → Except ε β) : List α → Except ε (List β)
  | [] => .ok []
  | a :: as =>
    match f a with
    | .error e => .error e
    | .ok b =>
      match mapExcept f as with
      | .error e => .error e
      | .ok bs => .ok (b :: bs)

/-- Body of the comprehension `tools_dict[tool_name.strip()][0]` of
`get_tools` (line 53): strip the token and look it up in the catalog; an
unknown token raises `KeyError` (the `Except` error carries the stripped
name). -/
def lookupToolExcept (env : String → Option String) (tn : String) :
    Except String BaseTool :=
  match lookupTool (_init_tools_dict env) (stripStr tn) with
  | some td => Except.ok td.1
  | none => Except.error (stripStr tn)

/-- Embedding of `get_tools` (griptape_tool_box.py lines 23-53). The
selector agent run is external; its textual response is the input
`selector_output`, consumed only on the dynamic path. The boolean in the
result records whether the selector agent was invoked (the dynamic branch
runs `agent.run`). Non-dynamic: all catalog tools in catalog order.
Dynamic: the literal response `None` maps to no tools; any other response
is split on commas, each token stripped and looked up in the catalog. -/
def get_tools (env : String → Option String) (message : String)
    (dynamic : Bool) (selector_output : String) :
    Except String (List BaseTool × Bool) :=
  if dynamic = false then
    .ok ((_init_tools_dict env).map (fun e => e.2.1), false)
  else
    let tool_names :=
      if selector_output ≠ "None" then splitCommaStr selector_output else []
    match mapExcept (lookupToolExcept env) tool_names with
    | .error e => .error e
    | .ok ts => .ok (ts, true)

/-- The per-ruleset opt-in `ruleset.meta.get("dynamic_tools", False)` of
`agent` (line 117), with Python truthiness. -/
def rulesetDynamicTools (r : Ruleset) : Bool :=
  match r.meta.lookup "dynamic_tools" with
  | some v => v.truthy
  | none => false

/-- Observable effects of one `agent` invocation before and at the run:
the thread alias set, the tools resolved for the run, and the `ToolEvent`s
published (each carrying the tool list and the stream flag, and flushed
synchronously) before the run starts. -/
structure AgentTrace where
  threadAlias : Option String
  tools : List BaseTool
  toolEvents : List (List BaseTool × Bool)
deriving DecidableEq, Repr

/-- Embedding of `agent` (griptape_handler.py lines 106-134): set the
thread alias; compute `dynamic_tools` as the feature flag
`dynamic_tools_enabled()` (modelled as the boolean `dynamic_tools_feature`)
or-ed with the per-ruleset opt-ins; resolve the tools; publish one flushed
`ToolEvent(tools=tools, stream=stream)` exactly when `dynamic_tools`;
run the agent (external, its text-or-error outcome is the input
`run_output`) and re-raise an `ErrorArtifact` as an error. Listener
registration on the event bus carries no state the claims observe. -/
def agent (env : String → Option String) (dynamic_tools_feature : Bool)
    (message : String) (thread_alias : Option String) (user_id : String)
    (rulesets : List Ruleset) (stream : Bool) (selector_output : String)
    (run_output : Except String String) :
    Except String (AgentTrace × String) :=
  let dynamic_tools :=
    dynamic_tools_feature || rulesets.any rulesetDynamicTools
  match get_tools env message dynamic_tools selector_output with
  | .error e => .error e
  | .ok (tools, _) =>
    match run_output with
    | .error e => .error e
    | .ok text =>
      .ok ({ threadAlias := thread_alias,
             tools := tools,
             toolEvents :=
               if dynamic_tools then [(tools, stream)] else [] },
           text)

/-- Embedding of `is_relevant_response` (griptape_handler.py lines
137-168) from the structured model output onward: the relevance-gate agent
run and `json.loads` are external, so the input is the run outcome with
its payload already parsed into an association list of JSON fields. An
`ErrorArtifact` outcome re-raises; otherwise the code returns
`json.loads(output.to_text())["should_respond"]`: the field's value
whatever its type, or a `KeyError` when the field is absent. -/
def is_relevant_response (message response : String)
    (parsed_output : Except String (List (String × JsonValue))) :
    Except String JsonValue :=
  match parsed_output with
  | .error e => .error e
  | .ok fields =>
    match fields.lookup "should_respond" with
    | some v => .ok v
    | none => .error "KeyError: should_respond"

example : findMentions "<@U123> hi".toList = ["U123".toList] := by
  simp +decide [findMentions, isWordChar]
example : findMentions "no mention".toList = [] := by
  simp +decide [findMentions, isWordChar]
example : findMentions "<@a<@b>".toList = ["b".toList] := by
  simp +decide [findMentions, isWordChar]
example : findMentions "<@@a>".toList = [] := by
  simp +decide [findMentions, isWordChar]
example : findMentions "<@ab c>".toList = [] := by
  simp +decide [findMentions, isWordChar]
example : pySplitComma "a, b".toList = ["a".toList, " b".toList] := by decide
example : pySplitComma "".toList = ["".toList] := by decide
example : pyStrip "  a b ".toList = "a b".toList := by decide

theorem isWordChar_gt : isWordChar '>' = false := by decide

theorem span_run (w rest1 : List Char) (hw : ∀ c ∈ w, isWordChar c = true) :
    (w ++ '>' :: rest1).takeWhile isWordChar = w ∧
    (w ++ '>' :: rest1).dropWhile isWordChar = '>' :: rest1 := by
  induction w with
  | nil =>
    constructor
    · simp [List.takeWhile_cons, isWordChar_gt]
    · simp [List.dropWhile_cons, isWordChar_gt]
  | cons a as ih =>
    have ha : isWordChar a = true := hw a (by simp)
    have ihs := ih (fun c hc => hw c (by simp [hc]))
    constructor
    · simp [List.takeWhile_cons, ha, ihs.1]
    · simp [List.dropWhile_cons, ha, ihs.2]

theorem findMentions_nil : findMentions [] = [] := by
  simp [findMentions]

theorem findMentions_pos (rest : List Char)
    (h : rest.takeWhile isWordChar ≠ [] ∧
      (rest.dropWhile isWordChar).head? = some '>') :
    findMentions ('<' :: '@' :: rest) =
      rest.takeWhile isWordChar ::
        findMentions (rest.dropWhile isWordChar).tail := by
  rw [findMentions.eq_def]
  split
  · rename_i heq
    exact absurd heq (by simp)
  · rename_i rest2 heq
    injection heq with h1 h2
    injection h2 with h3 h4
    subst h4
    rw [dif_pos h]
  · rename_i hno heq
    injection heq with h1 h2
    exact (hno _ h1.symm h2.symm).elim

theorem findMentions_neg (rest : List Char)
    (h : ¬(rest.takeWhile isWordChar ≠ [] ∧
      (rest.dropWhile isWordChar).head? = some '>')) :
    findMentions ('<' :: '@' :: rest) = findMentions ('@' :: rest) := by
  rw [findMentions.eq_def]
  split
  · rename_i heq
    exact absurd heq (by simp)
  · rename_i rest2 heq
    injection heq with h1 h2
    injection h2 with h3 h4
    subst h4
    rw [dif_neg h]
  · rename_i hno heq
    injection heq with h1 h2
    exact (hno _ h1.symm h2.symm).elim

theorem findMentions_other (c : Char) (rest : List Char)
    (h : ∀ r, c = '<' → rest = '@' :: r → False) :
    findMentions (c :: rest) = findMentions rest := by
  rw [findMentions.eq_def]
  split
  · rename_i heq
    exact absurd heq (by simp)
  · rename_i rest2 heq
    injection heq with h1 h2
    exact (h rest2 h1 h2).elim
  · rename_i c2 rest2 hno heq
    injection heq with h1 h2
    rw [h2]

theorem mention_shift (w post : List Char) :
    ∀ (w0 q rest1 : List Char), (∀ c ∈ w0, isWordChar c = true) →
      q ++ '<' :: '@' :: (w ++ '>' :: post) = w0 ++ '>' :: rest1 →
      ∃ q2, rest1 = q2 ++ '<' :: '@' :: (w ++ '>' :: post) := by
  intro w0
  induction w0 with
  | nil =>
    intro q rest1 _ heq
    cases q with
    | nil =>
      simp only [List.nil_append] at heq
      injection heq with h1 h2
      exact absurd h1 (by decide)
    | cons a q1 =>
      simp only [List.cons_append, List.nil_append] at heq
      injection heq with h1 h2
      exact ⟨q1, h2.symm⟩
  | cons b w01 ih =>
    intro q rest1 hword heq
    cases q with
    | nil =>
      simp only [List.nil_append, List.cons_append] at heq
      injection heq with h1 h2
      have hb := hword b (by simp)
      rw [← h1] at hb
      exact absurd hb (by decide)
    | cons a q1 =>
      simp only [List.cons_append] at heq
      injection heq with h1 h2
      exact ih q1 rest1 (fun c hc => hword c (by simp [hc])) h2

theorem mention_complete (l : List Char) :
    ∀ w, IsMentionOf l w → w ∈ findMentions l := by
  induction l using findMentions.induct with
  | case1 =>
    intro w hm
    obtain ⟨hne, hword, pre, post, heq⟩ := hm
    exact absurd heq.symm (by simp)
  | case2 rest h ih =>
    intro w hm
    obtain ⟨hne, hword, pre, post, heq⟩ := hm
    have hd : rest.dropWhile isWordChar =
        '>' :: (rest.dropWhile isWordChar).tail := by
      cases hdd : rest.dropWhile isWordChar with
      | nil => rw [hdd] at h; exact absurd h.2 (by simp)
      | cons a as =>
        rw [hdd] at h
        simp only [List.head?_cons, Option.some.injEq] at h
        rw [h.2]
        rfl
    rw [findMentions_pos rest h]
    cases pre with
    | nil =>
      simp only [List.nil_append] at heq
      injection heq with h1 h2
      injection h2 with h3 h4
      have hspan := span_run w post hword
      rw [← h4] at hspan
      rw [hspan.1]
      have : (rest.dropWhile isWordChar).tail = post := by
        rw [hspan.2]
        rfl
      rw [this]
      exact List.mem_cons_self _ _
    | cons p pre1 =>
      simp only [List.cons_append] at heq
      injection heq with h1 h2
      cases pre1 with
      | nil =>
        simp only [List.nil_append] at h2
        injection h2 with h3 h4
        exact absurd h3 (by decide)
      | cons q pre2 =>
        simp only [List.cons_append] at h2
        injection h2 with h3 h4
        have hrest : pre2 ++ '<' :: '@' :: (w ++ '>' :: post) =
            rest.takeWhile isWordChar ++
              '>' :: (rest.dropWhile isWordChar).tail :=
          calc pre2 ++ '<' :: '@' :: (w ++ '>' :: post) = rest := h4.symm
            _ = rest.takeWhile isWordChar ++ rest.dropWhile isWordChar :=
              (List.takeWhile_append_dropWhile (p := isWordChar)
                (l := rest)).symm
            _ = rest.takeWhile isWordChar ++
                '>' :: (rest.dropWhile isWordChar).tail :=
              congrArg (fun t => rest.takeWhile isWordChar ++ t) hd
        have hw0 : ∀ c ∈ rest.takeWhile isWordChar, isWordChar c = true :=
          fun c hc => List.mem_takeWhile_imp hc
        obtain ⟨q2, hq2⟩ :=
          mention_shift w post (rest.takeWhile isWordChar) pre2 _ hw0 hrest
        exact List.mem_cons_of_mem _ (ih w ⟨hne, hword, q2, post, hq2⟩)
  | case3 rest h ih =>
    intro w hm
    obtain ⟨hne, hword, pre, post, heq⟩ := hm
    rw [findMentions_neg rest h]
    cases pre with
    | nil =>
      simp only [List.nil_append] at heq
      injection heq with h1 h2
      injection h2 with h3 h4
      have hspan := span_run w post hword
      rw [← h4] at hspan
      exact absurd (by rw [hspan.1]; exact ⟨hne, by rw [hspan.2]; rfl⟩) h
    | cons p pre1 =>
      injection heq with h1 h2
      exact ih w ⟨hne, hword, pre1, post, h2⟩
  | case4 c rest hno ih =>
    intro w hm
    obtain ⟨hne, hword, pre, post, heq⟩ := hm
    cases pre with
    | nil =>
      simp only [List.nil_append] at heq
      injection heq with h1 h2
      exact (hno _ h1 h2).elim
    | cons p pre1 =>
      simp only [List.cons_append] at heq
      injection heq with h1 h2
      rw [findMentions_other c rest hno]
      exact ih w ⟨hne, hword, pre1, post, h2⟩

theorem mention_sound (l : List Char) :
    ∀ w, w ∈ findMentions l → IsMentionOf l w := by
  induction l using findMentions.induct with
  | case1 =>
    intro w hw
    rw [findMentions_nil] at hw
    exact absurd hw (by simp)
  | case2 rest h ih =>
    intro w hw
    rw [findMentions_pos rest h] at hw
    have hd : rest.dropWhile isWordChar =
        '>' :: (rest.dropWhile isWordChar).tail := by
      cases hdd : rest.dropWhile isWordChar with
      | nil => rw [hdd] at h; exact absurd h.2 (by simp)
      | cons a as =>
        rw [hdd] at h
        simp only [List.head?_cons, Option.some.injEq] at h
        rw [h.2]
        rfl
    have hrest : rest = rest.takeWhile isWordChar ++
        '>' :: (rest.dropWhile isWordChar).tail :=
      calc rest = rest.takeWhile isWordChar ++ rest.dropWhile isWordChar :=
            (List.takeWhile_append_dropWhile (p := isWordChar)
              (l := rest)).symm
        _ = rest.takeWhile isWordChar ++
            '>' :: (rest.dropWhile isWordChar).tail :=
          congrArg (fun t => rest.takeWhile isWordChar ++ t) hd
    rcases List.mem_cons.mp hw with hweq | hwmem
    · subst hweq
      refine ⟨h.1, fun c hc => List.mem_takeWhile_imp hc, [],
        (rest.dropWhile isWordChar).tail, ?_⟩
      rw [List.nil_append]
      rw [← hrest]
    · obtain ⟨hne, hword, pre1, post, heq⟩ := ih w hwmem
      refine ⟨hne, hword,
        '<' :: '@' :: (rest.takeWhile isWordChar ++ '>' :: pre1), post, ?_⟩
      calc '<' :: '@' :: rest
          = '<' :: '@' :: (rest.takeWhile isWordChar ++
              '>' :: (rest.dropWhile isWordChar).tail) :=
            congrArg (fun t => '<' :: '@' :: t) hrest
        _ = '<' :: '@' :: (rest.takeWhile isWordChar ++
              '>' :: (pre1 ++ '<' :: '@' :: (w ++ '>' :: post))) :=
            congrArg
              (fun t => '<' :: '@' :: (rest.takeWhile isWordChar ++ '>' :: t))
              heq
        _ = ('<' :: '@' :: (rest.takeWhile isWordChar ++ '>' :: pre1)) ++
              '<' :: '@' :: (w ++ '>' :: post) := by
            simp
  | case3 rest h ih =>
    intro w hw
    rw [findMentions_neg rest h] at hw
    obtain ⟨hne, hword, pre1, post, heq⟩ := ih w hw
    exact ⟨hne, hword, '<' :: pre1, post, by rw [heq]; rfl⟩
  | case4 c rest hno ih =>
    intro w hw
    rw [findMentions_other c rest hno] at hw
    obtain ⟨hne, hword, pre1, post, heq⟩ := ih w hw
    exact ⟨hne, hword, c :: pre1, post, by rw [heq]; rfl⟩

/-- C2 counterexample: on the message `<@A> <@A>` the extraction step of
`try_add_to_thread` returns the two-element list `["A", "A"]`, so it does
not return a duplicates-collapsed set as the claim states: the result is a
list and duplicate mentions are preserved. -/
theorem c2_duplicates_not_collapsed_counterexample :
    findMentions "<@A> <@A>".toList = ["A".toList, "A".toList] ∧
    ¬ (findMentions "<@A> <@A>".toList).Nodup := by
  have h : findMentions "<@A> <@A>".toList = ["A".toList, "A".toList] := by
    simp +decide [findMentions, isWordChar]
  refine ⟨h, ?_⟩
  rw [h]
  decide

/-- C2 (amended): for all message text, the mention extraction step
returns the list of identifiers of the `<@IDENTIFIER>` occurrences
(IDENTIFIER one or more word characters), in occurrence order with
duplicate mentions preserved; an identifier is an element of that list if
and only if it appears in such an occurrence, and the list is empty
exactly when no occurrence exists. -/
theorem c2_find_mentions_characterization (l w : List Char) :
    w ∈ findMentions l ↔ IsMentionOf l w :=
  ⟨mention_sound l w, mention_complete l w⟩

/-- C1: if any identity mentioned in the message resolves to a ruleset
with metadata `type = "bot"`, `try_add_to_thread` appends nothing to the
memory; if none does, it appends exactly one run, with empty output text
and with input text containing the original message body and the user
identifier as substrings. -/
theorem c1_try_add_to_thread_appends
    (store : String → List (String × JsonValue)) (message : String)
    (thread_alias : Option String) (user_id : String) (s : MemoryState) :
    (hasBotMention store message = true →
      (try_add_to_thread store message thread_alias user_id s).runs
        = s.runs) ∧
    (hasBotMention store message = false →
      (try_add_to_thread store message thread_alias user_id s).runs
          = s.runs ++ [(contextMessage user_id message, "")] ∧
        List.IsInfix message.toList (contextMessage user_id message).toList ∧
        List.IsInfix user_id.toList
          (contextMessage user_id message).toList) := by
  constructor
  · intro hb
    simp [try_add_to_thread, set_thread_alias, hb]
  · intro hb
    refine ⟨by simp [try_add_to_thread, set_thread_alias, hb], ?_, ?_⟩
    · refine ⟨("Do not respond. Only use this message for future context. Message: "
          ++ squote ++ "user " ++ user_id ++ ": ").toList, squote.toList, ?_⟩
      simp [contextMessage]
    · refine ⟨("Do not respond. Only use this message for future context. Message: "
          ++ squote ++ "user ").toList,
        (": " ++ message ++ squote).toList, ?_⟩
      simp [contextMessage]

/-- C1 witness: concrete instances of both branches. With a store typing
`B1` as a bot, the message `hi <@B1>` appends nothing; with an empty
store, the same message appends exactly one context run. -/
theorem c1_try_add_to_thread_appends_witness :
    (try_add_to_thread
        (fun n => if n = "B1" then [("type", JsonValue.jstr "bot")] else [])
        "hi <@B1>" (some "t1") "U9" ⟨none, []⟩).runs = [] ∧
    (try_add_to_thread (fun _ => []) "hi <@B1>" (some "t1") "U9"
        ⟨none, []⟩).runs
      = [] ++ [(contextMessage "U9" "hi <@B1>", "")] := by
  constructor
  · exact (c1_try_add_to_thread_appends
        (fun n => if n = "B1" then [("type", JsonValue.jstr "bot")] else [])
        "hi <@B1>" (some "t1") "U9" ⟨none, []⟩).1
      (by simp +decide [hasBotMention, findMentions, isWordChar, mkNamedRuleset])
  · exact ((c1_try_add_to_thread_appends (fun _ => []) "hi <@B1>" (some "t1")
        "U9" ⟨none, []⟩).2
      (by simp +decide [hasBotMention, findMentions, isWordChar,
        mkNamedRuleset])).1

/-- C3: `get_rulesets` with the dynamic-rulesets feature disabled returns
exactly the fixed default catalog of five rulesets, in fixed order,
regardless of the keyword arguments; with it enabled it returns one
identity-bound (named) ruleset per keyword value, in the order supplied,
followed by the same default catalog. -/
theorem c3_get_rulesets_resolution
    (store : String → List (String × JsonValue))
    (kwargs : List (String × String)) :
    get_rulesets store false kwargs = _get_default_rulesets ∧
    get_rulesets store true kwargs
      = (kwargs.map fun kv => mkNamedRuleset store kv.2)
          ++ _get_default_rulesets ∧
    _get_default_rulesets.length = 5 := by
  refine ⟨?_, ?_, ?_⟩
  · simp [get_rulesets]
  · simp [get_rulesets]
  · simp [_get_default_rulesets]

/-- C10: `try_add_to_thread` always overwrites the process-wide thread
alias with the supplied value, and on the abort path (a bot-typed mention)
the whole effect is exactly that alias mutation: the abort is not free of
side effects on ambient state. -/
theorem c10_thread_alias_set_before_bot_check
    (store : String → List (String × JsonValue)) (message : String)
    (thread_alias : Option String) (user_id : String) (s : MemoryState) :
    (try_add_to_thread store message thread_alias user_id s).threadAlias
        = thread_alias ∧
    (hasBotMention store message = true →
      try_add_to_thread store message thread_alias user_id s
        = set_thread_alias thread_alias s) := by
  constructor
  · unfold try_add_to_thread
    split <;> simp [set_thread_alias]
  · intro hb
    simp [try_add_to_thread, hb]

/-- C10 witness: with a store typing `B1` as a bot, the abort path still
rewrites the thread alias from `some "old"` to `some "new"`. -/
theorem c10_thread_alias_set_before_bot_check_witness :
    try_add_to_thread
        (fun n => if n = "B1" then [("type", JsonValue.jstr "bot")] else [])
        "hi <@B1>" (some "new") "U9" ⟨some "old", []⟩
      = set_thread_alias (some "new") ⟨some "old", []⟩ :=
  (c10_thread_alias_set_before_bot_check
      (fun n => if n = "B1" then [("type", JsonValue.jstr "bot")] else [])
      "hi <@B1>" (some "new") "U9" ⟨some "old", []⟩).2
    (by simp +decide [hasBotMention, findMentions, isWordChar, mkNamedRuleset])

theorem pySplitComma_ne_nil (l : List Char) : pySplitComma l ≠ [] := by
  cases l with
  | nil => simp [pySplitComma]
  | cons c rest =>
    by_cases hc : c = ','
    · simp [pySplitComma, hc]
    · simp only [pySplitComma, if_neg hc]
      cases pySplitComma rest <;> simp

theorem splitCommaStr_ne_nil (s : String) : splitCommaStr s ≠ [] := by
  simp only [splitCommaStr, ne_eq, List.map_eq_nil_iff]
  exact pySplitComma_ne_nil _

theorem mapExcept_error_of_mem {α ε β : Type} (f : α → Except ε β)
    (l : List α) (a : α) (ha : a ∈ l) (e : ε) (hfa : f a = .error e) :
    ∃ e2, mapExcept f l = .error e2 := by
  induction l with
  | nil => cases ha
  | cons b bs ih =>
    cases hfb : f b with
    | error e3 => exact ⟨e3, by simp [mapExcept, hfb]⟩
    | ok v =>
      rcases List.mem_cons.mp ha with h | h
      · subst h
        rw [hfb] at hfa
        cases hfa
      · obtain ⟨e2, he2⟩ := ih h
        exact ⟨e2, by simp [mapExcept, hfb, he2]⟩

theorem mapExcept_ok_length {α ε β : Type} (f : α → Except ε β)
    (l : List α) (bs : List β) (h : mapExcept f l = .ok bs) :
    bs.length = l.length := by
  induction l generalizing bs with
  | nil =>
    simp only [mapExcept] at h
    injection h with h1
    subst h1
    rfl
  | cons a as ih =>
    simp only [mapExcept] at h
    cases hfa : f a with
    | error e => rw [hfa] at h; cases h
    | ok b =>
      rw [hfa] at h
      cases hma : mapExcept f as with
      | error e => rw [hma] at h; cases h
      | ok bs1 =>
        rw [hma] at h
        injection h with h1
        rw [← h1]
        simp [ih bs1 hma]

theorem lookupTool_empty_name (env : String → Option String) :
    lookupTool (_init_tools_dict env) "" = none := rfl

theorem get_tools_error_of_unknown (env : String → Option String)
    (message selector_output t : String)
    (hnn : selector_output ≠ "None")
    (ht : t ∈ splitCommaStr selector_output)
    (hlk : lookupTool (_init_tools_dict env) (stripStr t) = none) :
    ∃ e, get_tools env message true selector_output = .error e := by
  have hfa : lookupToolExcept env t = .error (stripStr t) := by
    simp [lookupToolExcept, hlk]
  obtain ⟨e2, he2⟩ := mapExcept_error_of_mem (lookupToolExcept env)
    (splitCommaStr selector_output) t ht _ hfa
  refine ⟨e2, ?_⟩
  simp [get_tools, hnn, he2]

/-- C4: `get_tools` with `dynamic=False` returns the full tool catalog in
catalog order, with length equal to the catalog size, without invoking the
selection agent (the invocation flag is `false`), whatever the message and
whatever the selector model would have answered. -/
theorem c4_get_tools_static (env : String → Option String)
    (message selector_output : String) :
    get_tools env message false selector_output
      = .ok ((_init_tools_dict env).map (fun e => e.2.1), false) ∧
    ((_init_tools_dict env).map (fun e => e.2.1)).length
      = (_init_tools_dict env).length := by
  exact ⟨rfl, by simp⟩

/-- C5: in dynamic mode the literal selector response `None` yields the
empty tool list; any other response is split on commas, tokens stripped,
and the tools returned in response order (not catalog order: the catalog
lists `quote_knowledge_base_tool` before `slack_tool`, yet the reversed
response returns them reversed), each token looked up in the catalog. -/
theorem c5_get_tools_dynamic_parsing (env : String → Option String)
    (message : String) :
    get_tools env message true "None" = .ok ([], true) ∧
    get_tools env message true "quote_knowledge_base_tool, slack_tool"
      = .ok ([_get_knowledge_base_tool env "quotes" "QUOTE_KNOWLEDGE_BASE_ID",
          .cloudTool ((env "GT_CLOUD_SLACK_TOOL_ID").getD
            "17f0ef8c-a5e2-4c2a-8f15-533691225195")], true) ∧
    get_tools env message true "slack_tool, quote_knowledge_base_tool"
      = .ok ([.cloudTool ((env "GT_CLOUD_SLACK_TOOL_ID").getD
            "17f0ef8c-a5e2-4c2a-8f15-533691225195"),
          _get_knowledge_base_tool env "quotes" "QUOTE_KNOWLEDGE_BASE_ID"],
          true) := by
  exact ⟨rfl, rfl, rfl⟩

/-- C6: in dynamic mode, a selector response containing a token that is
not a key of the catalog makes `get_tools` fail with an error: it never
returns a partial tool list, drops the token, or wildcard-matches it. -/
theorem c6_get_tools_unknown_tool_error (env : String → Option String)
    (message selector_output t : String)
    (hnn : selector_output ≠ "None")
    (ht : t ∈ splitCommaStr selector_output)
    (hlk : lookupTool (_init_tools_dict env) (stripStr t) = none) :
    (∃ e, get_tools env message true selector_output = .error e) ∧
    ∀ res, get_tools env message true selector_output ≠ .ok res := by
  obtain ⟨e, he⟩ :=
    get_tools_error_of_unknown env message selector_output t hnn ht hlk
  exact ⟨⟨e, he⟩, fun res hok => by rw [he] at hok; cases hok⟩

/-- C6 witness: the response `github_tool, bogus_tool` names the unknown
tool `bogus_tool`; with an empty environment the lookup fails and
`get_tools` errors. -/
theorem c6_get_tools_unknown_tool_error_witness :
    ∃ e, get_tools (fun _ => none) "m" true "github_tool, bogus_tool"
      = .error e :=
  (c6_get_tools_unknown_tool_error (fun _ => none) "m"
    "github_tool, bogus_tool" " bogus_tool" (by decide) (by decide)
    (by decide)).1

/-- C9: only the exact literal response `None` produces the empty tool
list in dynamic mode: any other response never yields an empty `ok`
result, and when all its comma-split tokens strip to the empty string
(empty response, or commas and whitespace only) `get_tools` errors on the
failed catalog lookup of the empty token. -/
theorem c9_empty_selector_response_errors (env : String → Option String)
    (message selector_output : String)
    (hnn : selector_output ≠ "None") :
    get_tools env message true selector_output ≠ .ok ([], true) ∧
    ((∀ tk ∈ splitCommaStr selector_output, stripStr tk = "") →
      ∃ e, get_tools env message true selector_output = .error e) := by
  constructor
  · intro hok
    cases hm : mapExcept (lookupToolExcept env)
        (splitCommaStr selector_output) with
    | error e => simp [get_tools, hnn, hm] at hok
    | ok bs =>
      simp [get_tools, hnn, hm] at hok
      have hlen := mapExcept_ok_length _ _ _ hm
      rw [hok] at hlen
      exact splitCommaStr_ne_nil selector_output
        (List.length_eq_zero.mp hlen.symm)
  · intro hall
    obtain ⟨t, ht⟩ :=
      List.exists_mem_of_ne_nil _ (splitCommaStr_ne_nil selector_output)
    have hstrip := hall t ht
    have hlk : lookupTool (_init_tools_dict env) (stripStr t) = none := by
      rw [hstrip]
      exact lookupTool_empty_name env
    exact get_tools_error_of_unknown env message selector_output t hnn ht hlk

/-- C9 witness: the empty response and a commas-and-whitespace response
both error; neither maps to the empty list. -/
theorem c9_empty_selector_response_errors_witness :
    get_tools (fun _ => none) "m" true "" ≠ .ok ([], true) ∧
    (∃ e, get_tools (fun _ => none) "m" true " ,  ," = .error e) :=
  ⟨(c9_empty_selector_response_errors (fun _ => none) "m" "" (by decide)).1,
    (c9_empty_selector_response_errors (fun _ => none) "m" " ,  ,"
      (by decide)).2 (by decide)⟩

/-- C7 counterexample: a well-formed structured response whose
`should_respond` field has the wrong type (the string `"yes"` instead of a
boolean) does not make `is_relevant_response` fail: the code returns the
field's value unchanged, with no type check, contradicting the claim that
a wrong-typed field raises an explicit error. -/
theorem c7_wrong_type_not_rejected_counterexample :
    is_relevant_response "m" "r"
        (.ok [("should_respond", JsonValue.jstr "yes")])
      = .ok (JsonValue.jstr "yes") ∧
    ∀ b : Bool, JsonValue.jstr "yes" ≠ JsonValue.jbool b := by
  refine ⟨rfl, fun b => by cases b <;> decide⟩

/-- C7 (amended): on a well-formed structured response
`is_relevant_response` returns exactly the value of the `should_respond`
field — in particular the boolean when the field is boolean; when the
field is absent it fails with an explicit error (`KeyError`), and an
error outcome of the gate run is re-raised; but a wrong-typed field value
is returned unchanged rather than rejected. -/
theorem c7_should_respond_extraction (message response : String)
    (fields : List (String × JsonValue)) :
    (∀ v, fields.lookup "should_respond" = some v →
      is_relevant_response message response (.ok fields) = .ok v) ∧
    (fields.lookup "should_respond" = none →
      is_relevant_response message response (.ok fields)
        = .error "KeyError: should_respond") ∧
    (∀ e, is_relevant_response message response (.error e) = .error e) := by
  refine ⟨?_, ?_, fun e => rfl⟩
  · intro v hv
    simp [is_relevant_response, hv]
  · intro hv
    simp [is_relevant_response, hv]

/-- C7 witness: a boolean field is extracted exactly, and the field's
absence errors. -/
theorem c7_should_respond_extraction_witness :
    is_relevant_response "m" "r" (.ok [("should_respond", JsonValue.jbool true)])
      = .ok (JsonValue.jbool true) ∧
    is_relevant_response "m" "r" (.ok [("other", JsonValue.jbool true)])
      = .error "KeyError: should_respond" :=
  ⟨(c7_should_respond_extraction "m" "r"
      [("should_respond", JsonValue.jbool true)]).1
    (JsonValue.jbool true) rfl,
  (c7_should_respond_extraction "m" "r"
      [("other", JsonValue.jbool true)]).2.1 rfl⟩

theorem get_tools_flag_eq_dynamic (env : String → Option String)
    (message : String) (d : Bool) (selector_output : String)
    (ts : List BaseTool) (b : Bool)
    (h : get_tools env message d selector_output = .ok (ts, b)) : b = d := by
  cases d with
  | false =>
    simp only [get_tools, if_pos rfl] at h
    injection h with h1
    exact (congrArg Prod.snd h1).symm
  | true =>
    simp only [get_tools] at h
    cases hm : mapExcept (lookupToolExcept env)
        (if selector_output ≠ "None" then splitCommaStr selector_output
          else []) with
    | error e => rw [hm] at h; cases h
    | ok bs =>
      rw [hm] at h
      injection h with h1
      exact (congrArg Prod.snd h1).symm

/-- C8: the `agent` invocation resolves its tools in dynamic mode exactly
when the global dynamic-tools feature flag is set or some resolved
ruleset's `dynamic_tools` metadata is truthy (the invocation flag returned
by `get_tools` equals that disjunction), and it publishes one flushed
tools-chosen event, carrying the resolved tool list and the stream flag,
before the run exactly when that dynamic mode holds. -/
theorem c8_agent_dynamic_mode_and_event (env : String → Option String)
    (dynamic_tools_feature : Bool) (message : String)
    (thread_alias : Option String) (user_id : String)
    (rulesets : List Ruleset) (stream : Bool) (selector_output : String)
    (run_output : Except String String) (tr : AgentTrace) (text : String)
    (h : agent env dynamic_tools_feature message thread_alias user_id
      rulesets stream selector_output run_output = .ok (tr, text)) :
    get_tools env message
        (dynamic_tools_feature || rulesets.any rulesetDynamicTools)
        selector_output
      = .ok (tr.tools,
          dynamic_tools_feature || rulesets.any rulesetDynamicTools) ∧
    ((dynamic_tools_feature || rulesets.any rulesetDynamicTools) = true →
      tr.toolEvents = [(tr.tools, stream)]) ∧
    ((dynamic_tools_feature || rulesets.any rulesetDynamicTools) = false →
      tr.toolEvents = []) := by
  simp only [agent] at h
  cases hg : get_tools env message
      (dynamic_tools_feature || rulesets.any rulesetDynamicTools)
      selector_output with
  | error e =>
    rw [hg] at h
    cases h
  | ok p =>
    obtain ⟨tools, b⟩ := p
    rw [hg] at h
    cases run_output with
    | error e => cases h
    | ok t =>
      injection h with h1
      have htr : tr =
          { threadAlias := thread_alias, tools := tools,
            toolEvents :=
              (if (dynamic_tools_feature || rulesets.any rulesetDynamicTools)
                then [(tools, stream)] else []) } :=
        (congrArg Prod.fst h1).symm
      have hb := get_tools_flag_eq_dynamic env message _ selector_output
        tools b hg
      subst htr
      refine ⟨?_, ?_, ?_⟩
      · subst hb
        rfl
      · intro hdyn
        simp [hdyn]
      · intro hdyn
        simp [hdyn]

/-- C8 witness: with the feature flag on, no rulesets, selector response
`None` and a successful run, the agent run is dynamic, resolves no tools
and publishes exactly one event carrying them and the stream flag. -/
theorem c8_agent_dynamic_mode_and_event_witness :
    get_tools (fun _ => none) "m"
        (true || List.any [] rulesetDynamicTools) "None"
      = .ok ((⟨none, [], [([], false)]⟩ : AgentTrace).tools,
          true || List.any [] rulesetDynamicTools) ∧
    (⟨none, [], [([], false)]⟩ : AgentTrace).toolEvents
      = [((⟨none, [], [([], false)]⟩ : AgentTrace).tools, false)] := by
  have happ := c8_agent_dynamic_mode_and_event (fun _ => none) true "m"
    none "U" [] false "None" (.ok "hi") ⟨none, [], [([], false)]⟩ "hi" rfl
  exact ⟨happ.1, happ.2.1 rfl⟩
